import Mathlib

/-!
Verification of the `iron` image-optimizer core (Rust, `src-tauri/src/core`)
against its natural-language specification.

The Rust code is shallowly embedded: byte buffers are `List Nat` (each element
a byte value), machine integers are `Nat` with explicit `% 2^w` where a cast
matters, fallible operations return `Except`/`Option`, and Rust operations
that can panic (out-of-range slices and indexing) are threaded through the
`PResult` type whose `panic` constructor marks an aborted computation.
-/

namespace Iron

/-- Outcome of a Rust computation that may panic (index/slice out of range). -/
inductive PResult (α : Type) where
  | panic : PResult α
  | value : α → PResult α
  deriving Repr, DecidableEq

/-- Sequencing of possibly-panicking computations. -/
def PResult.bind {α β : Type} : PResult α → (α → PResult β) → PResult β
  | .panic, _ => .panic
  | .value a, f => f a

/-- Rust slice expression `&data[a..b]`: panics when `a > b` or `b > len`. -/
def rslice (data : List Nat) (a b : Nat) : PResult (List Nat) :=
  if a ≤ b ∧ b ≤ data.length then .value ((data.drop a).take (b - a)) else .panic

/-- Rust index expression `data[i]`: panics when `i ≥ len`. -/
def ridx (data : List Nat) (i : Nat) : PResult Nat :=
  if i < data.length then .value (data.getD i 0) else .panic

/-- In-bounds byte read (used only where the source guards the bound). -/
def nth (data : List Nat) (i : Nat) : Nat := data.getD i 0

/-- Rust `u16::from_be_bytes`. -/
def u16be (hi lo : Nat) : Nat := hi * 256 + lo

/-- Rust `u32::from_be_bytes`. -/
def u32be (b0 b1 b2 b3 : Nat) : Nat := ((b0 * 256 + b1) * 256 + b2) * 256 + b3

/-- Rust `u16::to_le_bytes`. -/
def u16leBytes (n : Nat) : List Nat := [n % 256, n / 256 % 256]

/-- Rust `u32::to_le_bytes`. -/
def u32leBytes (n : Nat) : List Nat :=
  [n % 256, n / 256 % 256, n / 65536 % 256, n / 16777216 % 256]

/-- Rust `u16::to_be_bytes`. -/
def u16beBytes (n : Nat) : List Nat := [n / 256 % 256, n % 256]

/-- A UTF-8 continuation byte (`0x80..=0xBF`). -/
def utf8Cont (b : Nat) : Bool := 128 ≤ b && b ≤ 191

/-- UTF-8 validity of a byte sequence, as checked by `std::str::from_utf8`. -/
def utf8Valid : List Nat → Bool
  | [] => true
  | b :: rest =>
    if b ≤ 127 then utf8Valid rest
    else if 194 ≤ b && b ≤ 223 then
      match rest with
      | c1 :: r => utf8Cont c1 && utf8Valid r
      | [] => false
    else if b = 224 then
      match rest with
      | c1 :: c2 :: r => (160 ≤ c1 && c1 ≤ 191) && utf8Cont c2 && utf8Valid r
      | _ => false
    else if (225 ≤ b && b ≤ 236) || b = 238 || b = 239 then
      match rest with
      | c1 :: c2 :: r => utf8Cont c1 && utf8Cont c2 && utf8Valid r
      | _ => false
    else if b = 237 then
      match rest with
      | c1 :: c2 :: r => (128 ≤ c1 && c1 ≤ 159) && utf8Cont c2 && utf8Valid r
      | _ => false
    else if b = 240 then
      match rest with
      | c1 :: c2 :: c3 :: r =>
        (144 ≤ c1 && c1 ≤ 191) && utf8Cont c2 && utf8Cont c3 && utf8Valid r
      | _ => false
    else if 241 ≤ b && b ≤ 243 then
      match rest with
      | c1 :: c2 :: c3 :: r => utf8Cont c1 && utf8Cont c2 && utf8Cont c3 && utf8Valid r
      | _ => false
    else if b = 244 then
      match rest with
      | c1 :: c2 :: c3 :: r =>
        (128 ≤ c1 && c1 ≤ 143) && utf8Cont c2 && utf8Cont c3 && utf8Valid r
      | _ => false
    else false

/-- ASCII lower-casing of one byte (`to_lowercase` restricted to ASCII). -/
def asciiLower (b : Nat) : Nat := if 65 ≤ b && b ≤ 90 then b + 32 else b

/-- Rust `haystack.contains(needle)` on byte sequences. -/
def containsSeq (needle : List Nat) (hay : List Nat) : Bool :=
  if needle.isPrefixOf hay then true
  else
    match hay with
    | [] => false
    | _ :: t => containsSeq needle t

/-! ## `core/color_profile.rs` -/

/-- The color profiles distinguished by `color_profile.rs` (`ColorProfile`). -/
inductive ColorProfile where
  | srgb
  | adobeRgb
  | displayP3
  | proPhotoRgb
  | unknown (name : List Nat)
  deriving Repr, DecidableEq

/-- The bytes of `"desc"`. -/
def descSig : List Nat := [100, 101, 115, 99]

/-- The bytes of `"ICC_PROFILE"`. -/
def iccProfileSig : List Nat := [73, 67, 67, 95, 80, 82, 79, 70, 73, 76, 69]

/-- The bytes of `"iCCP"`. -/
def iccpSig : List Nat := [105, 67, 67, 80]

/-- The bytes of `"IEND"`. -/
def iendSig : List Nat := [73, 69, 78, 68]

/-- The 8-byte PNG signature. -/
def pngSignature : List Nat := [137, 80, 78, 71, 13, 10, 26, 10]

/-- Loop body of `parse_icc_description`: scan `remaining` further tag-table
entries of the ICC profile starting at `offset`.  The slice
`&desc_data[12..12 + text_length - 1]` is the source's; it panics when
`text_length = 0`. -/
def descLoop (pd : List Nat) (offset : Nat) : Nat → PResult (Option (List Nat))
  | 0 => .value none
  | remaining + 1 =>
    if offset + 12 > pd.length then .value none
    else
      let tagSignature := (pd.drop offset).take 4
      if tagSignature = descSig then
        let tagOffset := u32be (nth pd (offset+4)) (nth pd (offset+5))
          (nth pd (offset+6)) (nth pd (offset+7))
        let tagSize := u32be (nth pd (offset+8)) (nth pd (offset+9))
          (nth pd (offset+10)) (nth pd (offset+11))
        if tagOffset + tagSize ≤ pd.length then
          let descData := (pd.drop tagOffset).take tagSize
          if descData.length > 12 then
            let textLength := u32be (nth descData 8) (nth descData 9)
              (nth descData 10) (nth descData 11)
            if 12 + textLength ≤ descData.length then
              (rslice descData 12 (12 + textLength - 1)).bind fun content =>
                if utf8Valid content then .value (some content)
                else descLoop pd (offset + 12) remaining
            else descLoop pd (offset + 12) remaining
          else descLoop pd (offset + 12) remaining
        else descLoop pd (offset + 12) remaining
      else descLoop pd (offset + 12) remaining

/-- Function `parse_icc_description`: find the `desc` tag of an ICC profile and return
its description text. -/
def parse_icc_description (pd : List Nat) : PResult (Option (List Nat)) :=
  if pd.length < 132 then .value none
  else
    let tagCount := u32be (nth pd 128) (nth pd 129) (nth pd 130) (nth pd 131)
    descLoop pd 132 tagCount

/-- Loop of `extract_jpeg_icc_profile`: walk the JPEG marker segments from
`offset`.  The slice `&data[offset+4..offset+2+length]` is the source's; it
panics when `length < 2`.  `fuel` only bounds the recursion; since `offset`
grows by at least 2 per step while the guard needs `offset + 4 < len`, a fuel
of `data.length` is never exhausted. -/
def jpegLoop (data : List Nat) : Nat → Nat → PResult (Option (List Nat))
  | _, 0 => .value none
  | offset, fuel + 1 =>
    if offset + 4 < data.length then
      if nth data offset ≠ 255 then .value none
      else
        let marker := nth data (offset + 1)
        let app2 : PResult (Option (List Nat)) :=
          if marker = 226 then
            let length := u16be (nth data (offset+2)) (nth data (offset+3))
            if offset + 2 + length ≤ data.length then
              (rslice data (offset + 4) (offset + 2 + length)).bind fun segment =>
                if segment.length > 14 ∧ segment.take 11 = iccProfileSig then
                  parse_icc_description (segment.drop 14)
                else .value none
            else .value none
          else .value none
        app2.bind fun found =>
          match found with
          | some name => .value (some name)
          | none =>
            if marker = 216 ∨ marker = 217 ∨ (208 ≤ marker ∧ marker ≤ 215) then
              jpegLoop data (offset + 2) fuel
            else if offset + 4 < data.length then
              let length := u16be (nth data (offset+2)) (nth data (offset+3))
              jpegLoop data (offset + 2 + length) fuel
            else .value none
    else .value none

/-- Function `extract_jpeg_icc_profile`: scan the JPEG APP2 segments for an
`ICC_PROFILE` payload and parse its description. -/
def extract_jpeg_icc_profile (data : List Nat) : PResult (Option (List Nat)) :=
  jpegLoop data 2 data.length

/-- Loop of `extract_png_icc_profile`: walk the PNG chunks from `offset`.
The slice `&data[offset+8..offset+8+chunk_length]` is the source's; it panics
when the declared chunk length runs past the buffer. -/
def pngLoop (data : List Nat) : Nat → Nat → PResult (Option (List Nat))
  | _, 0 => .value none
  | offset, fuel + 1 =>
    if offset + 8 < data.length then
      let chunkLength := u32be (nth data offset) (nth data (offset+1))
        (nth data (offset+2)) (nth data (offset+3))
      let chunkType := (data.drop (offset + 4)).take 4
      let found : PResult (Option (List Nat)) :=
        if chunkType = iccpSig then
          (rslice data (offset + 8) (offset + 8 + chunkLength)).bind fun chunkData =>
            match chunkData.findIdx? (fun b => b = 0) with
            | some nullPos =>
              if utf8Valid (chunkData.take nullPos) then
                .value (some (chunkData.take nullPos))
              else .value none
            | none => .value none
        else .value none
      found.bind fun
        | some name => .value (some name)
        | none =>
          if chunkType = iendSig then .value none
          else pngLoop data (offset + 12 + chunkLength) fuel
    else .value none

/-- Function `extract_png_icc_profile`: look for the `iCCP` chunk and return the
profile name it declares.  `fuel` only bounds the recursion; `offset` grows by
at least 12 per step, so a fuel of `data.length` is never exhausted. -/
def extract_png_icc_profile (data : List Nat) : PResult (Option (List Nat)) :=
  pngLoop data 8 data.length

/-- Function `extract_icc_profile_name`: dispatch on the container signature. -/
def extract_icc_profile_name (data : List Nat) : PResult (Option (List Nat)) :=
  if data.length > 2 ∧ nth data 0 = 255 ∧ nth data 1 = 216 then
    extract_jpeg_icc_profile data
  else if data.length > 8 ∧ (data.drop 1).take 3 = [80, 78, 71] then
    extract_png_icc_profile data
  else .value none

/-- Classification of a profile name, as in `detect_color_profile`'s match. -/
def classifyProfileName (name : List Nat) : ColorProfile :=
  let lower := name.map asciiLower
  if containsSeq [115, 114, 103, 98] lower then .srgb
  else if containsSeq [97, 100, 111, 98, 101] lower &&
      containsSeq [114, 103, 98] lower then .adobeRgb
  else if containsSeq [100, 105, 115, 112, 108, 97, 121] lower &&
      containsSeq [112, 51] lower then .displayP3
  else if containsSeq [112, 114, 111, 112, 104, 111, 116, 111] lower then .proPhotoRgb
  else .unknown name

/-- Function `detect_color_profile`: the argument is the result of `std::fs::read`
(`none` models a read error).  Falls back to sRGB when no profile is found. -/
def detect_color_profile (readResult : Option (List Nat)) : PResult ColorProfile :=
  match readResult with
  | some data =>
    (extract_icc_profile_name data).bind fun
      | some name => .value (classifyProfileName name)
      | none => .value .srgb
  | none => .value .srgb

/-! ## `core/exif_writer.rs` -/

/-- The fields of `exif_handler::ExifData` consumed by the metadata writer
(`build_ifd0_entries`); strings are UTF-8 byte sequences. -/
structure ExifData where
  artist : Option (List Nat)
  copyright : Option (List Nat)
  cameraMake : Option (List Nat)
  cameraModel : Option (List Nat)
  dateTaken : Option (List Nat)
  orientation : Option Nat
  iso : Option Nat
  deriving Repr, DecidableEq

/-- Structure `exif_handler::ExifOptions`. -/
structure ExifOptions where
  preserveAll : Bool
  stripGps : Bool
  stripThumbnail : Bool
  updateSoftware : Bool
  preserveCopyright : Bool
  deriving Repr, DecidableEq

/-- Rust `Vec::resize(n, fill)`: truncate or pad to exactly `n` elements. -/
def rustResize (l : List Nat) (n : Nat) (fill : Nat) : List Nat :=
  if n ≤ l.length then l.take n else l ++ List.replicate (n - l.length) fill

/-- Function `create_ascii_entry`: a 12-byte IFD entry of type ASCII.  The count field
is the Rust cast `(value.len() + 1) as u32`, hence the `% 2^32`. -/
def create_ascii_entry (tag : Nat) (value : List Nat) : List Nat :=
  let count := (value.length + 1) % 4294967296
  if count ≤ 4 then
    u16leBytes tag ++ u16leBytes 2 ++ u32leBytes count ++
      rustResize (value ++ [0]) 4 0
  else
    u16leBytes tag ++ u16leBytes 2 ++ u32leBytes count ++ (value.take 3 ++ [0])

/-- Function `create_short_entry`: a 12-byte IFD entry of type SHORT. -/
def create_short_entry (tag : Nat) (value : Nat) : List Nat :=
  u16leBytes tag ++ u16leBytes 3 ++ u32leBytes 1 ++ u16leBytes value ++ [0, 0]

/-- The bytes of `"Iron Optimizer v1.0"`. -/
def softwareName : List Nat :=
  [73, 114, 111, 110, 32, 79, 112, 116, 105, 109, 105, 122, 101, 114, 32,
   118, 49, 46, 48]

/-- The numeric tag id of an IFD entry: `u16::from_le_bytes([e[0], e[1]])`. -/
def tagOfEntry (e : List Nat) : Nat := nth e 0 + 256 * nth e 1

/-- Comparison of IFD entries by tag id (the `sort_by_key` key order). -/
def tagLe (a b : List Nat) : Prop := tagOfEntry a ≤ tagOfEntry b

instance : DecidableRel tagLe := fun _ _ => Nat.decLe _ _

instance : IsTotal (List Nat) tagLe := ⟨fun _ _ => Nat.le_total _ _⟩

instance : IsTrans (List Nat) tagLe := ⟨fun _ _ _ => Nat.le_trans⟩

/-- One optional ASCII entry: pushed exactly when the field is present. -/
def optAsciiEntry (tag : Nat) : Option (List Nat) → List (List Nat)
  | some s => [create_ascii_entry tag s]
  | none => []

/-- One optional SHORT entry: pushed exactly when the field is present. -/
def optShortEntry (tag : Nat) : Option Nat → List (List Nat)
  | some n => [create_short_entry tag n]
  | none => []

/-- The IFD0 entries in push order, before the final sort (the `entries`
vector of `build_ifd0_entries`).  `iso` is pushed through the Rust cast
`iso as u16`, hence the `% 65536`. -/
def ifd0EntriesRaw (data : ExifData) (options : ExifOptions) : List (List Nat) :=
  (if options.updateSoftware then [create_ascii_entry 305 softwareName] else [])
    ++ (if options.preserveCopyright then
          optAsciiEntry 315 data.artist ++ optAsciiEntry 33432 data.copyright
        else [])
    ++ optAsciiEntry 271 data.cameraMake
    ++ optAsciiEntry 272 data.cameraModel
    ++ optAsciiEntry 306 data.dateTaken
    ++ optShortEntry 274 data.orientation
    ++ optShortEntry 34855 (data.iso.map fun iso => iso % 65536)

/-- Function `build_ifd0_entries`: the filtered IFD0 entries, sorted
ascending by tag id (`sort_by_key` on the little-endian tag bytes). -/
def build_ifd0_entries (data : ExifData) (options : ExifOptions) : List (List Nat) :=
  List.insertionSort tagLe (ifd0EntriesRaw data options)

/-- The bytes of `"Exif\0\0"`. -/
def exifHeaderSig : List Nat := [69, 120, 105, 102, 0, 0]

/-- Function `build_exif_segment`: a complete APP1 EXIF segment.  The Rust function
returns `Result` but never errs; the length field is the cast
`(segment.len() - 2) as u16` written big-endian over the placeholder. -/
def build_exif_segment (data : ExifData) (options : ExifOptions) : List Nat :=
  let entries := build_ifd0_entries data options
  let segment :=
    [255, 225] ++ [0, 0] ++ exifHeaderSig
    ++ [73, 73] ++ [42, 0] ++ [8, 0, 0, 0]
    ++ u16leBytes (entries.length % 65536)
    ++ entries.flatten
    ++ [0, 0, 0, 0]
  segment.take 2 ++ u16beBytes ((segment.length - 2) % 65536) ++ segment.drop 4

/-- Errors of the JPEG metadata write path. -/
inductive WErr where
  | invalidJpeg
  | invalidStructure
  | truncated
  | invalidLength
  deriving Repr, DecidableEq

/-- Loop of `inject_exif_into_jpeg`: copy segments from position `i`,
skipping old APP1 EXIF segments.  `jpeg_data[i + 1]` is the source's
unguarded index (it panics when `i + 1 = len`).  `fuel` only bounds the
recursion; `i` grows by at least 2 per step, so `jpeg.length + 1` is never
exhausted. -/
def injLoop (jpeg : List Nat) : List Nat → Nat → Nat → PResult (Except WErr (List Nat))
  | _, _, 0 => .panic
  | result, i, fuel + 1 =>
    if i < jpeg.length then
      if nth jpeg i ≠ 255 then .value (.error .invalidStructure)
      else
        (ridx jpeg (i + 1)).bind fun marker =>
          if marker = 216 ∨ marker = 217 ∨ (208 ≤ marker ∧ marker ≤ 215) then
            injLoop jpeg (result ++ [nth jpeg i, marker]) (i + 2) fuel
          else if i + 3 ≥ jpeg.length then .value (.error .truncated)
          else
            let length := u16be (nth jpeg (i+2)) (nth jpeg (i+3))
            if marker = 225 ∧ i + 10 < jpeg.length ∧
                (jpeg.drop (i+4)).take 6 = exifHeaderSig then
              injLoop jpeg result (i + 2 + length) fuel
            else if i + 2 + length > jpeg.length then .value (.error .invalidLength)
            else
              injLoop jpeg (result ++ (jpeg.drop i).take (2 + length))
                (i + 2 + length) fuel
    else .value (.ok result)

/-- Function `inject_exif_into_jpeg`: new EXIF segment right after SOI, the remaining
segments copied, old APP1 EXIF dropped. -/
def inject_exif_into_jpeg (jpeg exifSegment : List Nat) :
    PResult (Except WErr (List Nat)) :=
  (rslice jpeg 0 2).bind fun soi =>
    injLoop jpeg (soi ++ exifSegment) 2 (jpeg.length + 1)

/-- Outcome of `write_jpeg_exif` on the destination file: its final byte
content, tagged by how the call ended. -/
inductive WriteOutcome where
  | panicked (destAfter : List Nat)
  | errored (e : WErr) (destAfter : List Nat)
  | wrote (destAfter : List Nat)
  deriving Repr, DecidableEq

/-- Function `write_jpeg_exif`, with the destination file's bytes as explicit state:
`fs::read` yields `dest`, and `fs::write` replaces it only on full success. -/
def write_jpeg_exif (dest : List Nat) (sourceData : ExifData)
    (options : ExifOptions) : WriteOutcome :=
  if dest.length < 4 ∨ nth dest 0 ≠ 255 ∨ nth dest 1 ≠ 216 then
    .errored .invalidJpeg dest
  else
    match inject_exif_into_jpeg dest (build_exif_segment sourceData options) with
    | .panic => .panicked dest
    | .value (.error e) => .errored e dest
    | .value (.ok newJpeg) => .wrote newJpeg

/-! ## `core/task.rs` -/

/-- The image formats relevant to `ImageFormat::from_path`: JPEG, PNG, or any
other format the `image` crate recognises (all of which `ImageTask::new`
rejects alike). -/
inductive ImgFormat where
  | jpeg
  | png
  | other
  deriving Repr, DecidableEq

/-- Extensions (lower-cased) that the `image` crate maps to formats other
than JPEG and PNG. -/
def otherKnownExts : List (List Nat) :=
  [[97,118,105,102], [98,109,112], [100,100,115], [101,120,114], [102,102],
   [103,105,102], [104,100,114], [105,99,111], [112,110,109], [112,97,109],
   [112,98,109], [112,103,109], [112,112,109], [113,111,105], [116,103,97],
   [116,105,102], [116,105,102,102], [119,101,98,112]]

/-- Rust `ImageFormat::from_extension` (ASCII-case-insensitive); `none` models
`from_path` returning `Err` for an unrecognised extension. -/
def extToFormat (ext : List Nat) : Option ImgFormat :=
  let e := ext.map asciiLower
  if e = [106, 112, 103] ∨ e = [106, 112, 101, 103] then some .jpeg
  else if e = [112, 110, 103] then some .png
  else if e ∈ otherKnownExts then some .other
  else none

/-- The view of one path that `ImageTask::new` obtains from the operating
system: the UTF-8 bytes of the path (`none` models non-UTF-8), the
`exists`/`is_file` answers, the `fs::metadata` result as (length, readonly),
the `fs::read` / `File::open`-and-read content (`none` models an unreadable
file), and `Path::extension`. -/
structure FsInfo where
  pathStr : Option (List Nat)
  onDisk : Bool
  isFile : Bool
  meta : Option (Nat × Bool)
  content : Option (List Nat)
  ext : Option (List Nat)
  deriving Repr, DecidableEq

/-- Consistency of the OS view: for a readable regular file, `metadata.len()`
is the length of the bytes `fs::read` returns. -/
def FsInfo.wf (i : FsInfo) : Prop :=
  match i.meta, i.content with
  | some (sz, _), some c => c.length = sz
  | _, _ => True

/-- The reasons `ImageTask::new` attaches to `Invalid` tasks. -/
inductive Reason where
  | pathTooLong
  | invalidUtf8
  | notFound
  | notAFile
  | metadataErr
  | tooSmall
  | tooLarge
  | notReadable
  | formatValidationFailed
  | unsupportedFormat
  | unknownFormat
  deriving Repr, DecidableEq

/-- Type `ImageTask` (the constructor's result). -/
inductive ImageTask where
  | valid (format : ImgFormat) (sizeBytes : Nat)
  | invalid (reason : Reason)
  deriving Repr, DecidableEq

/-- Method `ImageTask::is_valid`. -/
def ImageTask.isValid : ImageTask → Bool
  | .valid _ _ => true
  | .invalid _ => false

/-- Method `ImageTask::validate_file_format`: read the first 16 bytes and check the
magic signature of the declared format. -/
def validate_file_format (content : Option (List Nat)) (fmt : ImgFormat) :
    Except Reason Unit :=
  match content with
  | none => .error .formatValidationFailed
  | some c =>
    let bytesRead := min 16 c.length
    if bytesRead < 4 then .error .formatValidationFailed
    else
      match fmt with
      | .jpeg =>
        if nth c 0 ≠ 255 ∨ nth c 1 ≠ 216 ∨ nth c 2 ≠ 255 then
          .error .formatValidationFailed
        else .ok ()
      | .png =>
        if bytesRead < 8 ∨ c.take 8 ≠ pngSignature then
          .error .formatValidationFailed
        else .ok ()
      | .other => .ok ()

/-- Constructor `ImageTask::new`: validate one path and build a task. -/
def imageTaskNew (i : FsInfo) : ImageTask :=
  match i.pathStr with
  | none => .invalid .invalidUtf8
  | some s =>
    if s.length > 4096 then .invalid .pathTooLong
    else if ¬ i.onDisk then .invalid .notFound
    else if ¬ i.isFile then .invalid .notAFile
    else
      match i.meta with
      | none => .invalid .metadataErr
      | some (sizeBytes, readonly) =>
        if sizeBytes < 100 then .invalid .tooSmall
        else if sizeBytes > 1000000000 then .invalid .tooLarge
        else if readonly ∧ i.content = none then .invalid .notReadable
        else
          match i.ext with
          | none => .invalid .unknownFormat
          | some e =>
            match extToFormat e with
            | some .jpeg =>
              match validate_file_format i.content .jpeg with
              | .error r => .invalid r
              | .ok () => .valid .jpeg sizeBytes
            | some .png =>
              match validate_file_format i.content .png with
              | .error r => .invalid r
              | .ok () => .valid .png sizeBytes
            | some .other => .invalid .unsupportedFormat
            | none => .invalid .unknownFormat

/-- The spec's validity condition, stated from the spec's words: the path
names an existing regular readable file whose declared extension is JPEG or
PNG, whose size is within [100 bytes, 1 GB], whose path length is at most
4096 characters, and whose magic-byte signature matches the
extension-implied format. -/
def taskValidSpec (i : FsInfo) : Prop :=
  (∃ s, i.pathStr = some s ∧ s.length ≤ 4096) ∧
  i.onDisk = true ∧ i.isFile = true ∧
  (∃ sz ro, i.meta = some (sz, ro) ∧ 100 ≤ sz ∧ sz ≤ 1000000000) ∧
  (∃ c, i.content = some c ∧
    ((∃ e, i.ext = some e ∧ extToFormat e = some .jpeg ∧
        c.take 3 = [255, 216, 255]) ∨
     (∃ e, i.ext = some e ∧ extToFormat e = some .png ∧
        c.take 8 = pngSignature)))

/-! ## `core/image_processing.rs` (`ImageProcessor::run_parallel`) -/

/-- The part of an `OptimizationResult` the progress claims speak about. -/
structure OptResult where
  originalPath : List Nat
  deriving Repr, DecidableEq

/-- A task as seen by the orchestrator. -/
inductive MTask where
  | valid (path : List Nat) (sizeBytes : Nat)
  | invalid (path : List Nat)
  deriving Repr, DecidableEq

/-- The count of `Valid` tasks (`total_valid_tasks`). -/
def countValidTasks : List MTask → Nat
  | [] => 0
  | .valid _ _ :: rest => countValidTasks rest + 1
  | .invalid _ :: rest => countValidTasks rest

/-- One emitted `optimization-progress` payload: (result, current, total). -/
structure ProgressPayload where
  result : OptResult
  current : Nat
  total : Nat
  deriving Repr, DecidableEq

/-- Loop of `run_parallel` over the valid tasks, serialised in task order
(every counter update and the decision to emit happen inside the one mutex
lock, so any rayon interleaving yields these counter values).  `proc`
abstracts `process_single_image`; `none` is a failed or panicked task.
Returns the final counter value and the emitted events. -/
def runParAux (proc : List Nat → Nat → Option OptResult) (total : Nat) :
    List MTask → Nat → Nat × List ProgressPayload
  | [], counter => (counter, [])
  | .invalid _ :: rest, counter => runParAux proc total rest counter
  | .valid p s :: rest, counter =>
    let current := counter + 1
    let tail := runParAux proc total rest current
    match proc p s with
    | some r => (tail.1, ⟨r, current, total⟩ :: tail.2)
    | none => tail

/-- Function `run_parallel`: filter the valid tasks and process them, incrementing the
shared counter once per completed task and emitting an event on success. -/
def run_parallel (tasks : List MTask)
    (proc : List Nat → Nat → Option OptResult) : Nat × List ProgressPayload :=
  runParAux proc (countValidTasks tasks) tasks 0

/-! ## `core/color_management.rs` and `color_profile::convert_to_srgb` -/

/-- Type `RenderingIntent`. -/
inductive RenderingIntent where
  | perceptual
  | relativeColorimetric
  | saturation
  | absoluteColorimetric
  deriving Repr, DecidableEq

/-- Method `ColorManager::convert_to_srgb` over an arbitrary image representation.
`conv` abstracts the LCMS2 profile construction and pixel transform applied
on the non-sRGB branches; the sRGB branch returns the input unchanged before
any transform is built. -/
def colorManagerConvertToSrgb {Img : Type}
    (conv : ColorProfile → RenderingIntent → Img → Except (List Nat) Img)
    (img : Img) (sourceProfile : ColorProfile) (intent : RenderingIntent) :
    Except (List Nat) Img :=
  match sourceProfile with
  | .srgb => .ok img
  | _ => conv sourceProfile intent img

/-- Function `color_profile::convert_to_srgb` (the simplified free function): every
branch returns a clone of the input image. -/
def convert_to_srgb {Img : Type} (img : Img) (sourceProfile : ColorProfile) :
    Img :=
  match sourceProfile with
  | .srgb => img
  | .adobeRgb | .displayP3 | .proPhotoRgb => img
  | .unknown _ => img

/-! ## Tag-table entry views (for the ICC description theorems) -/

/-- The tag count of an ICC profile (big-endian u32 at offset 128). -/
def tagCountOf (pd : List Nat) : Nat :=
  u32be (nth pd 128) (nth pd 129) (nth pd 130) (nth pd 131)

/-- The data offset declared by the tag-table entry at position `p`. -/
def entryOffsetAt (pd : List Nat) (p : Nat) : Nat :=
  u32be (nth pd (p+4)) (nth pd (p+5)) (nth pd (p+6)) (nth pd (p+7))

/-- The data size declared by the tag-table entry at position `p`. -/
def entrySizeAt (pd : List Nat) (p : Nat) : Nat :=
  u32be (nth pd (p+8)) (nth pd (p+9)) (nth pd (p+10)) (nth pd (p+11))

/-- The record addressed by the tag-table entry at position `p`. -/
def descDataAt (pd : List Nat) (p : Nat) : List Nat :=
  (pd.drop (entryOffsetAt pd p)).take (entrySizeAt pd p)

/-- The encoded text length of the `desc` record addressed at position `p`
(big-endian u32 at byte offset 8 of the record). -/
def descTextLenAt (pd : List Nat) (p : Nat) : Nat :=
  u32be (nth (descDataAt pd p) 8) (nth (descDataAt pd p) 9)
    (nth (descDataAt pd p) 10) (nth (descDataAt pd p) 11)

/-- The content bytes (text without the trailing null) of the `desc` record
addressed at position `p`. -/
def descContentAt (pd : List Nat) (p : Nat) : List Nat :=
  ((descDataAt pd p).drop 12).take (descTextLenAt pd p - 1)

/-! ## Concrete instances used by the theorems -/

/-- A PNG buffer whose `iCCP` chunk declares a length (255) running far past
the end of the 17-byte buffer. -/
def pngOverrunChunk : List Nat := pngSignature ++ [0, 0, 0, 255] ++ iccpSig ++ [0]

/-- An ICC profile buffer (144 bytes) whose single tag-table entry is a
`desc` record with encoded text length 0. -/
def iccZeroTextLen : List Nat :=
  List.replicate 128 0 ++ [0, 0, 0, 1] ++ descSig ++ [0, 0, 0, 0] ++ [0, 0, 0, 20]

/-- A JPEG buffer whose APP2 segment declares length 0 (less than the two
length bytes themselves). -/
def jpegShortApp2 : List Nat := [255, 216, 255, 226, 0, 0, 0]

/-- A synthetic ICC profile buffer (144 bytes): one tag-table entry, a `desc`
tag addressing offset 0 with size 24; the record encodes text length 5,
content bytes `hi!!` and a trailing null. -/
def iccDescSample : List Nat :=
  List.replicate 8 1 ++ [0, 0, 0, 5] ++ [104, 105, 33, 33] ++ [0, 0, 0, 0]
  ++ List.replicate 108 0 ++ [0, 0, 0, 1] ++ descSig ++ [0, 0, 0, 0]
  ++ [0, 0, 0, 24]

/-- An ASCII value whose encoded length (content + null terminator) is
exactly 2^32, so that the count cast `as u32` wraps to 0. -/
def hugeAscii : List Nat := List.replicate 4294967295 65

/-- A batch with a single valid task. -/
def failTasks : List MTask := [MTask.valid [112] 100]

/-- A processing function that fails (or panics) on every task. -/
def procNone : List Nat → Nat → Option OptResult := fun _ _ => none

/-- A batch of 3 valid and 2 invalid input paths. -/
def mixedTasks : List MTask :=
  [.valid [1] 100, .valid [2] 100, .invalid [3], .valid [4] 100, .invalid [5]]

/-- A processing function that succeeds on every task, the result carrying
the task's path. -/
def procEcho : List Nat → Nat → Option OptResult := fun p _ => some ⟨p⟩

/-- An OS view of a well-formed 100-byte JPEG file named `a.jpg`. -/
def goodJpegInfo : FsInfo :=
  { pathStr := some [97, 46, 106, 112, 103]
    onDisk := true
    isFile := true
    meta := some (100, false)
    content := some ([255, 216, 255] ++ List.replicate 97 0)
    ext := some [106, 112, 103] }

/-- A JPEG destination file whose third byte is not a marker prefix. -/
def destBadByte : List Nat := [255, 216, 0, 0]

/-- An `ExifData` with no fields set. -/
def emptyExif : ExifData := ⟨none, none, none, none, none, none, none⟩

/-- The default `ExifOptions`. -/
def defaultOpts : ExifOptions := ⟨true, false, true, true, true⟩

/-- An ASCII value (`Test`) whose encoded length is 5 (> 4). -/
def testAscii : List Nat := [84, 101, 115, 116]

end Iron

set_option maxRecDepth 8000

namespace Iron

/-! ## C9: conversion is the identity when the source profile is sRGB -/

/-- C9: for every image representation, every abstracted LCMS2 transform,
every image and every rendering intent, `ColorManager::convert_to_srgb` with
source profile sRGB returns its input unchanged (`Ok(img.clone())`), and the
free function `color_profile::convert_to_srgb` does the same. -/
theorem convertToSrgb_id_on_srgb (Img : Type)
    (conv : ColorProfile → RenderingIntent → Img → Except (List Nat) Img)
    (img : Img) (intent : RenderingIntent) :
    colorManagerConvertToSrgb conv img ColorProfile.srgb intent = .ok img ∧
    convert_to_srgb img ColorProfile.srgb = img :=
  ⟨rfl, rfl⟩

/-- C9 witness: the identity holds at a concrete one-pixel byte image with a
transform that would be visible if it were applied. -/
theorem convertToSrgb_id_on_srgb_witness :
    colorManagerConvertToSrgb (fun _ _ _ => .ok ([7] : List Nat)) [0]
      ColorProfile.srgb RenderingIntent.perceptual = .ok [0] ∧
    convert_to_srgb ([0] : List Nat) ColorProfile.srgb = [0] :=
  convertToSrgb_id_on_srgb (List Nat) (fun _ _ _ => .ok [7]) [0] .perceptual

/-! ## C7: the JPEG marker scanner can panic on a malformed segment -/

/-- C7 (refuting the no-panic claim): on the 7-byte JPEG buffer whose APP2
segment declares length 0, the scanner evaluates the slice
`&data[offset+4..offset+2]` and panics instead of returning `None`. -/
theorem extract_jpeg_icc_panics_on_short_app2 :
    extract_jpeg_icc_profile jpegShortApp2 = PResult.panic := by decide

/-! ## C2: color-profile parse failures can panic instead of yielding sRGB -/

/-- C2 (refuting the no-panic claim): a PNG `iCCP` chunk whose declared
length runs past the buffer makes `detect_color_profile` panic (out-of-range
slice) instead of falling back to sRGB, and an ICC `desc` record with encoded
text length 0 makes `parse_icc_description` panic (slice `[12..11]`) instead
of returning `None`. -/
theorem color_profile_parse_panics :
    detect_color_profile (some pngOverrunChunk) = PResult.panic ∧
    parse_icc_description iccZeroTextLen = PResult.panic := by
  exact ⟨by decide, by decide⟩

/-! ## C5: IFD entries are 12 bytes and sorted by tag id -/

lemma rustResize_length (l : List Nat) (n fill : Nat) :
    (rustResize l n fill).length = n := by
  unfold rustResize
  split
  · simp [List.length_take]
    omega
  · simp
    omega

lemma create_ascii_entry_length (tag : Nat) (v : List Nat) :
    (create_ascii_entry tag v).length = 12 := by
  simp only [create_ascii_entry]
  split
  · simp [u16leBytes, u32leBytes, rustResize_length]
  · rename_i h
    simp only [List.length_append, u16leBytes, u32leBytes, List.length_take,
      List.length_cons, List.length_nil]
    omega

lemma create_short_entry_length (tag val : Nat) :
    (create_short_entry tag val).length = 12 := by
  simp [create_short_entry, u16leBytes, u32leBytes]

lemma forall_mem_optAscii (tag : Nat) (v : Option (List Nat)) :
    ∀ e ∈ optAsciiEntry tag v, e.length = 12 := by
  cases v <;> simp [optAsciiEntry, create_ascii_entry_length]

lemma forall_mem_optShort (tag : Nat) (v : Option Nat) :
    ∀ e ∈ optShortEntry tag v, e.length = 12 := by
  cases v <;> simp [optShortEntry, create_short_entry_length]

lemma ifd0EntriesRaw_lengths (data : ExifData) (options : ExifOptions) :
    ∀ e ∈ ifd0EntriesRaw data options, e.length = 12 := by
  intro e he
  simp only [ifd0EntriesRaw, List.mem_append] at he
  rcases he with ((((((h | h) | h) | h) | h) | h) | h)
  · split at h
    · rw [List.mem_singleton] at h
      subst h
      exact create_ascii_entry_length _ _
    · exact absurd h (List.not_mem_nil e)
  · split at h
    · rcases List.mem_append.mp h with h' | h'
      · exact forall_mem_optAscii 315 data.artist e h'
      · exact forall_mem_optAscii 33432 data.copyright e h'
    · exact absurd h (List.not_mem_nil e)
  · exact forall_mem_optAscii 271 data.cameraMake e h
  · exact forall_mem_optAscii 272 data.cameraModel e h
  · exact forall_mem_optAscii 306 data.dateTaken e h
  · exact forall_mem_optShort 274 data.orientation e h
  · exact forall_mem_optShort 34855 _ e h

/-- C5: for every `ExifData` and `ExifOptions`, every IFD entry emitted by
the metadata writer is exactly 12 bytes long (ASCII entries of any tag and
value, and SHORT entries alike), and `build_ifd0_entries` is sorted in
ascending order of numeric tag id. -/
theorem build_ifd0_entries_sized_sorted (data : ExifData) (options : ExifOptions)
    (tag sval : Nat) (aval : List Nat) :
    (create_ascii_entry tag aval).length = 12 ∧
    (create_short_entry tag sval).length = 12 ∧
    ((build_ifd0_entries data options).all fun e => e.length == 12) = true ∧
    List.Sorted tagLe (build_ifd0_entries data options) := by
  refine ⟨create_ascii_entry_length tag aval, create_short_entry_length tag sval,
    ?_, List.sorted_insertionSort tagLe _⟩
  rw [List.all_eq_true]
  intro e he
  have he' : e ∈ ifd0EntriesRaw data options := by
    simpa [build_ifd0_entries] using he
  simpa using ifd0EntriesRaw_lengths data options e he'

/-- C5 witness: the sizing and sortedness facts at a concrete `ExifData`
with no optional fields and the default options. -/
theorem build_ifd0_entries_sized_sorted_witness :
    (create_ascii_entry 305 testAscii).length = 12 ∧
    (create_short_entry 305 1).length = 12 ∧
    ((build_ifd0_entries emptyExif defaultOpts).all fun e => e.length == 12)
      = true ∧
    List.Sorted tagLe (build_ifd0_entries emptyExif defaultOpts) :=
  build_ifd0_entries_sized_sorted emptyExif defaultOpts 305 1 testAscii

/-! ## C8: extraction of a well-formed ICC description record -/

lemma descLoop_skip (pd : List Nat) (offset rem : Nat)
    (hin : offset + 12 ≤ pd.length)
    (hsig : (pd.drop offset).take 4 ≠ descSig) :
    descLoop pd offset (rem + 1) = descLoop pd (offset + 12) rem := by
  rw [descLoop]
  simp only [hsig, if_false, if_neg (by omega : ¬ offset + 12 > pd.length)]

lemma descDataAt_length (pd : List Nat) (p : Nat)
    (hbound : entryOffsetAt pd p + entrySizeAt pd p ≤ pd.length) :
    (descDataAt pd p).length = entrySizeAt pd p := by
  simp only [descDataAt, List.length_take, List.length_drop]
  omega

lemma entryOffsetAt_fold (pd : List Nat) (p : Nat) :
    u32be (nth pd (p+4)) (nth pd (p+5)) (nth pd (p+6)) (nth pd (p+7))
      = entryOffsetAt pd p := rfl

lemma entrySizeAt_fold (pd : List Nat) (p : Nat) :
    u32be (nth pd (p+8)) (nth pd (p+9)) (nth pd (p+10)) (nth pd (p+11))
      = entrySizeAt pd p := rfl

lemma descDataAt_fold (pd : List Nat) (p : Nat) :
    List.take (entrySizeAt pd p) (List.drop (entryOffsetAt pd p) pd)
      = descDataAt pd p := rfl

lemma descTextLenAt_fold (pd : List Nat) (p : Nat) :
    u32be (nth (descDataAt pd p) 8) (nth (descDataAt pd p) 9)
        (nth (descDataAt pd p) 10) (nth (descDataAt pd p) 11)
      = descTextLenAt pd p := rfl

lemma descContentAt_fold (pd : List Nat) (p : Nat) :
    List.take (descTextLenAt pd p - 1) (List.drop 12 (descDataAt pd p))
      = descContentAt pd p := rfl

lemma descLoop_hit (pd : List Nat) (offset rem : Nat)
    (hin : offset + 12 ≤ pd.length)
    (hsig : (pd.drop offset).take 4 = descSig)
    (hbound : entryOffsetAt pd offset + entrySizeAt pd offset ≤ pd.length)
    (hsize : 12 < entrySizeAt pd offset)
    (hN : 1 ≤ descTextLenAt pd offset)
    (hfit : 12 + descTextLenAt pd offset ≤ entrySizeAt pd offset)
    (hutf : utf8Valid (descContentAt pd offset) = true) :
    descLoop pd offset (rem + 1) = .value (some (descContentAt pd offset)) := by
  have hlen := descDataAt_length pd offset hbound
  simp only [descLoop]
  rw [if_neg (by omega : ¬ offset + 12 > pd.length), if_pos hsig,
    entryOffsetAt_fold pd offset, entrySizeAt_fold pd offset,
    descDataAt_fold pd offset, descTextLenAt_fold pd offset]
  rw [if_pos hbound]
  rw [if_pos (show (descDataAt pd offset).length > 12 by omega)]
  rw [if_pos (show 12 + descTextLenAt pd offset ≤ (descDataAt pd offset).length by
    omega)]
  simp only [rslice]
  rw [if_pos (show 12 ≤ 12 + descTextLenAt pd offset - 1 ∧
      12 + descTextLenAt pd offset - 1 ≤ (descDataAt pd offset).length by
    constructor <;> omega)]
  simp only [PResult.bind]
  rw [show 12 + descTextLenAt pd offset - 1 - 12 = descTextLenAt pd offset - 1 from
    by omega]
  rw [descContentAt_fold pd offset, if_pos hutf]

lemma descLoop_reaches (pd : List Nat) :
    ∀ (k offset rem : Nat), k < rem →
    (∀ j, j < k → (pd.drop (offset + 12 * j)).take 4 ≠ descSig) →
    offset + 12 * k + 12 ≤ pd.length →
    (pd.drop (offset + 12 * k)).take 4 = descSig →
    entryOffsetAt pd (offset + 12 * k) + entrySizeAt pd (offset + 12 * k) ≤ pd.length →
    12 < entrySizeAt pd (offset + 12 * k) →
    1 ≤ descTextLenAt pd (offset + 12 * k) →
    12 + descTextLenAt pd (offset + 12 * k) ≤ entrySizeAt pd (offset + 12 * k) →
    utf8Valid (descContentAt pd (offset + 12 * k)) = true →
    descLoop pd offset rem = .value (some (descContentAt pd (offset + 12 * k)))
  | 0, offset, rem, hk, _, htable, hsig, hbound, hsize, hN, hfit, hutf => by
    match rem, hk with
    | rem + 1, _ =>
      have h0 : offset + 12 * 0 = offset := by omega
      rw [h0] at htable hsig hbound hsize hN hfit hutf ⊢
      exact descLoop_hit pd offset rem (by omega) hsig hbound hsize hN hfit hutf
  | k + 1, offset, rem, hk, hprev, htable, hsig, hbound, hsize, hN, hfit, hutf => by
    match rem, hk with
    | rem + 1, hk =>
      have hstep : offset + 12 ≤ pd.length := by omega
      have hsig0 : (pd.drop offset).take 4 ≠ descSig := by
        have := hprev 0 (by omega)
        simpa using this
      rw [descLoop_skip pd offset rem hstep hsig0]
      have hshift : ∀ m : Nat, offset + 12 + 12 * m = offset + 12 * (m + 1) := by
        intro m; ring
      have hprev' : ∀ j, j < k → (pd.drop (offset + 12 + 12 * j)).take 4 ≠ descSig := by
        intro j hj
        rw [hshift j]
        exact hprev (j + 1) (by omega)
      have hres := descLoop_reaches pd k (offset + 12) rem (by omega) hprev'
        (by rw [hshift k]; omega)
        (by rw [hshift k]; exact hsig)
        (by rw [hshift k]; exact hbound)
        (by rw [hshift k]; exact hsize)
        (by rw [hshift k]; exact hN)
        (by rw [hshift k]; exact hfit)
        (by rw [hshift k]; exact hutf)
      rw [hres, hshift k]

/-- C8: for every ICC profile buffer whose tag table (entry `k`, with no
earlier `desc` entry) holds a `desc` entry addressing an in-bounds record of
size above 12 that encodes a text length `N ≥ 1` fitting in the record, with
`N - 1` content bytes of valid UTF-8 and a trailing null byte, description
extraction returns exactly those `N - 1` content bytes. -/
theorem parse_icc_description_extracts (pd : List Nat) (k : Nat)
    (hk : k < tagCountOf pd)
    (htable : 132 + 12 * k + 12 ≤ pd.length)
    (hprev : ∀ j, j < k → (pd.drop (132 + 12 * j)).take 4 ≠ descSig)
    (hsig : (pd.drop (132 + 12 * k)).take 4 = descSig)
    (hbound : entryOffsetAt pd (132 + 12 * k) + entrySizeAt pd (132 + 12 * k) ≤ pd.length)
    (hsize : 12 < entrySizeAt pd (132 + 12 * k))
    (hN : 1 ≤ descTextLenAt pd (132 + 12 * k))
    (hfit : 12 + descTextLenAt pd (132 + 12 * k) ≤ entrySizeAt pd (132 + 12 * k))
    (_hnull : nth (descDataAt pd (132 + 12 * k))
        (12 + descTextLenAt pd (132 + 12 * k) - 1) = 0)
    (hutf : utf8Valid (descContentAt pd (132 + 12 * k)) = true) :
    parse_icc_description pd = .value (some (descContentAt pd (132 + 12 * k))) := by
  unfold parse_icc_description
  rw [if_neg (by omega : ¬ pd.length < 132)]
  exact descLoop_reaches pd k 132 (tagCountOf pd) hk hprev htable hsig hbound
    hsize hN hfit hutf

/-- C8 witness: on the 144-byte synthetic ICC buffer whose `desc` record
encodes text length 5 with content `hi!!` and a trailing null, extraction
returns exactly the 4 content bytes. -/
theorem parse_icc_description_extracts_witness :
    parse_icc_description iccDescSample = .value (some [104, 105, 33, 33]) := by
  have h := parse_icc_description_extracts iccDescSample 0 (by decide) (by decide)
    (fun j hj => absurd hj (Nat.not_lt_zero j)) (by decide) (by decide) (by decide)
    (by decide) (by decide) (by decide) (by decide)
  have hc : descContentAt iccDescSample (132 + 12 * 0) = [104, 105, 33, 33] := by
    decide
  rw [hc] at h
  exact h

/-! ## C6: the inline value field of ASCII entries -/

/-- C6 counterexample: for the string of 2^32 - 1 content bytes (encoded
length 2^32, longer than 4), the count cast `as u32` wraps to 0, the entry
takes the inline branch, and the value field holds the first four content
bytes with no null terminator — not the claimed 3-byte prefix plus
terminator. -/
theorem create_ascii_entry_wrap_cex :
    4 < hugeAscii.length + 1 ∧
    (create_ascii_entry 305 hugeAscii).drop 8 = [65, 65, 65, 65] ∧
    (create_ascii_entry 305 hugeAscii).drop 8 ≠ hugeAscii.take 3 ++ [0] := by
  have hlen : hugeAscii.length = 4294967295 := List.length_replicate 4294967295 65
  have hlen2 : (hugeAscii ++ [0]).length = 4294967296 := by
    rw [List.length_append, hlen]
    rfl
  have hcount : (hugeAscii.length + 1) % 4294967296 = 0 := by
    rw [hlen]
  have ht4 : hugeAscii.take 4 = [65, 65, 65, 65] :=
    (List.take_replicate 65 4 4294967295).trans (by decide)
  have ht3 : hugeAscii.take 3 = [65, 65, 65] :=
    (List.take_replicate 65 3 4294967295).trans (by decide)
  have hval : (create_ascii_entry 305 hugeAscii).drop 8 = [65, 65, 65, 65] := by
    simp only [create_ascii_entry, hcount]
    rw [if_pos (by norm_num : (0 : Nat) ≤ 4)]
    rw [show (8 : Nat) = (u16leBytes 305 ++ u16leBytes 2 ++ u32leBytes 0).length from
      by decide]
    rw [List.drop_left]
    rw [rustResize, if_pos (by rw [hlen2]; norm_num)]
    rw [List.take_append_of_le_length (by rw [hlen]; norm_num)]
    exact ht4
  refine ⟨by rw [hlen]; norm_num, hval, ?_⟩
  rw [hval, ht3]
  decide

/-- C6 (amended): for every string whose encoded length (content plus null
terminator) fits in a u32, the first 8 entry bytes record tag, type ASCII and
the full encoded length; when the encoded length is at most 4 the value field
is the full string, a null terminator and zero padding to 4 bytes; when it is
longer the value field is exactly the first 3 content bytes and a null
terminator. -/
theorem create_ascii_entry_value_field (tag : Nat) (value : List Nat)
    (hsmall : value.length + 1 < 4294967296) :
    (create_ascii_entry tag value).take 8
      = u16leBytes tag ++ u16leBytes 2 ++ u32leBytes (value.length + 1) ∧
    (value.length + 1 ≤ 4 →
      (create_ascii_entry tag value).drop 8
        = (value ++ [0]) ++ List.replicate (4 - (value.length + 1)) 0) ∧
    (4 < value.length + 1 →
      (create_ascii_entry tag value).drop 8 = value.take 3 ++ [0]) := by
  have hmod : (value.length + 1) % 4294967296 = value.length + 1 :=
    Nat.mod_eq_of_lt hsmall
  have hl8 : (u16leBytes tag ++ u16leBytes 2 ++ u32leBytes (value.length + 1)).length
      = 8 := by
    simp [u16leBytes, u32leBytes]
  simp only [create_ascii_entry, hmod]
  by_cases hc : value.length + 1 ≤ 4
  · rw [if_pos hc]
    refine ⟨?_, fun _ => ?_, fun h4 => absurd hc (by omega)⟩
    · rw [show (8 : Nat) = (u16leBytes tag ++ u16leBytes 2
          ++ u32leBytes (value.length + 1)).length from hl8.symm]
      rw [List.take_left]
    · rw [show (8 : Nat) = (u16leBytes tag ++ u16leBytes 2
          ++ u32leBytes (value.length + 1)).length from hl8.symm]
      rw [List.drop_left]
      have hvlen : (value ++ [0]).length = value.length + 1 := by simp
      rw [rustResize]
      by_cases h4 : 4 ≤ (value ++ [0]).length
      · have hexact : (value ++ [0]).length = 4 := by omega
        rw [if_pos h4, List.take_of_length_le (le_of_eq hexact),
          show 4 - (value.length + 1) = 0 from by omega]
        simp
      · rw [if_neg h4, hvlen]
  · rw [if_neg hc]
    refine ⟨?_, fun h => absurd h hc, fun _ => ?_⟩
    · rw [show (8 : Nat) = (u16leBytes tag ++ u16leBytes 2
          ++ u32leBytes (value.length + 1)).length from hl8.symm]
      rw [List.take_left]
    · rw [show (8 : Nat) = (u16leBytes tag ++ u16leBytes 2
          ++ u32leBytes (value.length + 1)).length from hl8.symm]
      rw [List.drop_left]

/-- C6 witness: the amended theorem applied to tag 0x0131 and the 4-byte
string `Test` (encoded length 5, so the truncating branch applies). -/
theorem create_ascii_entry_value_field_witness :
    testAscii.length + 1 < 4294967296 ∧
    ((create_ascii_entry 305 testAscii).take 8
        = u16leBytes 305 ++ u16leBytes 2 ++ u32leBytes (testAscii.length + 1) ∧
     (testAscii.length + 1 ≤ 4 →
       (create_ascii_entry 305 testAscii).drop 8
         = (testAscii ++ [0]) ++ List.replicate (4 - (testAscii.length + 1)) 0) ∧
     (4 < testAscii.length + 1 →
       (create_ascii_entry 305 testAscii).drop 8 = testAscii.take 3 ++ [0])) :=
  ⟨by decide, create_ascii_entry_value_field 305 testAscii (by decide)⟩

/-! ## C10: the JPEG metadata write is atomic -/

/-- C10: the destination file's bytes change only when segment construction
and injection both succeed (every error or panic leaves them unchanged);
moreover the marker walk returns `Invalid JPEG structure` when the first
segment boundary after SOI holds a byte other than 0xFF, and
`Truncated JPEG` or `Invalid segment length` when the declared segment length
runs past the buffer. -/
theorem write_jpeg_exif_atomic (dest : List Nat) (data : ExifData)
    (options : ExifOptions) :
    ((∃ e, write_jpeg_exif dest data options = .errored e dest) ∨
     write_jpeg_exif dest data options = .panicked dest ∨
     (∃ out, inject_exif_into_jpeg dest (build_exif_segment data options)
         = .value (.ok out) ∧
       write_jpeg_exif dest data options = .wrote out)) ∧
    (∀ (res : List Nat) (i fuel : Nat), i < dest.length → nth dest i ≠ 255 →
      injLoop dest res i (fuel + 1) = .value (.error .invalidStructure)) ∧
    (∀ (res : List Nat) (i fuel : Nat), i < dest.length → nth dest i = 255 →
      i + 1 < dest.length →
      ¬ (nth dest (i+1) = 216 ∨ nth dest (i+1) = 217 ∨
          (208 ≤ nth dest (i+1) ∧ nth dest (i+1) ≤ 215)) →
      ¬ (nth dest (i+1) = 225 ∧ i + 10 < dest.length ∧
          (dest.drop (i+4)).take 6 = exifHeaderSig) →
      dest.length < i + 2 + u16be (nth dest (i+2)) (nth dest (i+3)) →
      (injLoop dest res i (fuel + 1) = .value (.error .truncated) ∨
       injLoop dest res i (fuel + 1) = .value (.error .invalidLength))) := by
  refine ⟨?_, ?_, ?_⟩
  · unfold write_jpeg_exif
    by_cases hhdr : dest.length < 4 ∨ nth dest 0 ≠ 255 ∨ nth dest 1 ≠ 216
    · rw [if_pos hhdr]
      exact Or.inl ⟨.invalidJpeg, rfl⟩
    · rw [if_neg hhdr]
      cases hinj : inject_exif_into_jpeg dest (build_exif_segment data options) with
      | panic =>
        right
        left
        rfl
      | value v =>
        cases v with
        | error e =>
          left
          exact ⟨e, rfl⟩
        | ok out =>
          right
          right
          exact ⟨out, rfl, rfl⟩
  · intro res i fuel hi hbad
    simp only [injLoop]
    rw [if_pos hi, if_pos hbad]
  · intro res i fuel hi h255 hi1 hstand hskip hlen
    simp only [injLoop]
    rw [if_pos hi, if_neg (show ¬ nth dest i ≠ 255 from fun h => h h255)]
    rw [ridx, if_pos hi1]
    simp only [PResult.bind]
    rw [show dest.getD (i + 1) 0 = nth dest (i + 1) from rfl]
    rw [if_neg hstand]
    by_cases htr : i + 3 ≥ dest.length
    · rw [if_pos htr]
      exact Or.inl rfl
    · rw [if_neg htr, if_neg hskip,
        if_pos (show i + 2 + u16be (nth dest (i+2)) (nth dest (i+3)) > dest.length
          from hlen)]
      exact Or.inr rfl

/-- C10 witness: on the 4-byte destination `FF D8 00 00` (valid SOI, then a
non-marker byte at the first boundary), the marker walk errors with
`Invalid JPEG structure` and the whole write leaves the destination bytes
unchanged. -/
theorem write_jpeg_exif_atomic_witness :
    injLoop destBadByte [] 2 1 = .value (.error .invalidStructure) ∧
    write_jpeg_exif destBadByte emptyExif defaultOpts
      = .errored .invalidStructure destBadByte :=
  ⟨(write_jpeg_exif_atomic destBadByte emptyExif defaultOpts).2.1 [] 2 0
      (by decide) (by decide),
   by decide⟩

/-! ## C3: the progress counter and the emitted events -/

lemma runParAux_counter (proc : List Nat → Nat → Option OptResult) (total : Nat) :
    ∀ (tasks : List MTask) (c : Nat),
      (runParAux proc total tasks c).1 = c + countValidTasks tasks := by
  intro tasks
  induction tasks with
  | nil => intro c; simp [runParAux, countValidTasks]
  | cons t rest ih =>
    intro c
    cases t with
    | valid p s =>
      simp only [runParAux, countValidTasks]
      cases hp : proc p s
      · rw [ih (c + 1)]
        omega
      · simp only []
        rw [ih (c + 1)]
        omega
    | invalid p =>
      simp only [runParAux, countValidTasks]
      exact ih c

lemma runParAux_total (proc : List Nat → Nat → Option OptResult) (total : Nat) :
    ∀ (tasks : List MTask) (c : Nat),
      ∀ ev ∈ (runParAux proc total tasks c).2, ev.total = total := by
  intro tasks
  induction tasks with
  | nil => intro c ev hev; simp [runParAux] at hev
  | cons t rest ih =>
    intro c ev hev
    cases t with
    | valid p s =>
      simp only [runParAux] at hev
      cases hp : proc p s
      · rw [hp] at hev
        exact ih (c + 1) ev hev
      · rw [hp] at hev
        rcases List.mem_cons.mp hev with h | h
        · rw [h]
        · exact ih (c + 1) ev h
    | invalid p =>
      simp only [runParAux] at hev
      exact ih c ev hev

lemma runParAux_source (proc : List Nat → Nat → Option OptResult) (total : Nat) :
    ∀ (tasks : List MTask) (c : Nat),
      ∀ ev ∈ (runParAux proc total tasks c).2,
        ∃ p s, MTask.valid p s ∈ tasks ∧ proc p s = some ev.result := by
  intro tasks
  induction tasks with
  | nil => intro c ev hev; simp [runParAux] at hev
  | cons t rest ih =>
    intro c ev hev
    cases t with
    | valid p s =>
      simp only [runParAux] at hev
      cases hp : proc p s with
      | none =>
        rw [hp] at hev
        obtain ⟨p', s', hmem, hps⟩ := ih (c + 1) ev hev
        exact ⟨p', s', List.mem_cons_of_mem _ hmem, hps⟩
      | some r =>
        rw [hp] at hev
        rcases List.mem_cons.mp hev with h | h
        · refine ⟨p, s, List.mem_cons_self _ _, ?_⟩
          rw [h]
          exact hp
        · obtain ⟨p', s', hmem, hps⟩ := ih (c + 1) ev h
          exact ⟨p', s', List.mem_cons_of_mem _ hmem, hps⟩
    | invalid p =>
      simp only [runParAux] at hev
      obtain ⟨p', s', hmem, hps⟩ := ih c ev hev
      exact ⟨p', s', List.mem_cons_of_mem _ hmem, hps⟩

lemma runParAux_currents (proc : List Nat → Nat → Option OptResult) (total : Nat) :
    ∀ (tasks : List MTask) (c : Nat),
      (∀ p s, MTask.valid p s ∈ tasks → proc p s ≠ none) →
      (runParAux proc total tasks c).2.map ProgressPayload.current
        = List.range' (c + 1) (countValidTasks tasks) := by
  intro tasks
  induction tasks with
  | nil => intro c _; simp [runParAux, countValidTasks]
  | cons t rest ih =>
    intro c hsucc
    cases t with
    | valid p s =>
      simp only [runParAux, countValidTasks]
      have hne : proc p s ≠ none := hsucc p s (List.mem_cons_self _ _)
      obtain ⟨r, hr⟩ := Option.ne_none_iff_exists'.mp hne
      rw [hr]
      simp only [List.map_cons]
      rw [ih (c + 1) (fun p' s' h => hsucc p' s' (List.mem_cons_of_mem _ h))]
      rw [List.range'_succ]
    | invalid p =>
      simp only [runParAux, countValidTasks]
      exact ih c (fun p' s' h => hsucc p' s' (List.mem_cons_of_mem _ h))

/-- C3 counterexample: a batch with one valid task whose processing fails —
the counter is incremented (one completion) but no progress event is emitted,
refuting `a progress event is emitted each time a task completes, whether it
succeeds or fails`. -/
theorem run_parallel_failed_task_emits_nothing :
    (run_parallel failTasks procNone).1 = 1 ∧
    (run_parallel failTasks procNone).2.length = 0 ∧
    ¬ (run_parallel failTasks procNone).2.length
        = (run_parallel failTasks procNone).1 := by
  exact ⟨by decide, by decide, by decide⟩

/-- C3 (amended): each completed valid task (success, failure or panic)
increments the shared counter exactly once; an `optimization-progress` event
carrying `(current, total valid count)` is emitted only for tasks whose
processing returns a result; every emitted event stems from a valid task; and
when every valid task succeeds the emitted currents are exactly `1, ..., n`
(so for 3 valid paths that all process successfully and 2 invalid ones there
are exactly 3 events, all with total 3, the final one with current 3, and no
invalid path in any event). -/
theorem run_parallel_progress (tasks : List MTask)
    (proc : List Nat → Nat → Option OptResult) :
    (run_parallel tasks proc).1 = countValidTasks tasks ∧
    (∀ ev ∈ (run_parallel tasks proc).2, ev.total = countValidTasks tasks) ∧
    (∀ ev ∈ (run_parallel tasks proc).2,
      ∃ p s, MTask.valid p s ∈ tasks ∧ proc p s = some ev.result) ∧
    ((∀ p s, MTask.valid p s ∈ tasks → proc p s ≠ none) →
      (run_parallel tasks proc).2.map ProgressPayload.current
        = List.range' 1 (countValidTasks tasks)) := by
  refine ⟨?_, ?_, ?_, ?_⟩
  · have h := runParAux_counter proc (countValidTasks tasks) tasks 0
    simpa [run_parallel] using h
  · exact runParAux_total proc (countValidTasks tasks) tasks 0
  · exact runParAux_source proc (countValidTasks tasks) tasks 0
  · intro hsucc
    have h := runParAux_currents proc (countValidTasks tasks) tasks 0 hsucc
    simpa [run_parallel] using h

/-- C3 witness: for the batch of 3 valid and 2 invalid paths in which every
valid task succeeds, the emitted currents are exactly `[1, 2, 3]`. -/
theorem run_parallel_progress_witness :
    (run_parallel mixedTasks procEcho).2.map ProgressPayload.current
      = List.range' 1 3 :=
  ((run_parallel_progress mixedTasks procEcho).2.2.2
    (fun p s _ => by simp [procEcho])).trans (by decide)

/-! ## C1: the task validator accepts exactly the spec's files -/

lemma invalid_not_valid (r : Reason) : ¬ ((ImageTask.invalid r).isValid = true) := by
  simp [ImageTask.isValid]

lemma take3_magic (c : List Nat) (h : 4 ≤ c.length) :
    c.take 3 = [255, 216, 255] ↔
      (nth c 0 = 255 ∧ nth c 1 = 216 ∧ nth c 2 = 255) := by
  cases c with
  | nil => simp at h
  | cons a t =>
    cases t with
    | nil => simp at h
    | cons b t2 =>
      cases t2 with
      | nil => simp at h
      | cons d t3 => simp [nth]

/-- C1: under the consistency of the OS view (`metadata.len()` agrees with
the readable content), `ImageTask::new` returns `Valid` exactly when the path
is valid UTF-8 of at most 4096 bytes and names an existing regular readable
file whose declared extension implies JPEG or PNG, whose size lies within
[100 bytes, 1 GB], and whose magic-byte signature matches the
extension-implied format; in every other case it returns `Invalid` (the
embedding is total, so the constructor never panics). -/
theorem imageTaskNew_valid_iff (i : FsInfo) (hwf : i.wf) :
    (imageTaskNew i).isValid = true ↔ taskValidSpec i := by
  cases hps : i.pathStr with
  | none =>
    refine iff_of_false (by simp [imageTaskNew, hps, ImageTask.isValid]) ?_
    rintro ⟨⟨s, hs, -⟩, -⟩
    rw [hps] at hs
    exact Option.noConfusion hs
  | some s =>
    simp only [imageTaskNew, hps]
    by_cases hlen : s.length > 4096
    · rw [if_pos hlen]
      refine iff_of_false (invalid_not_valid _) ?_
      rintro ⟨⟨s', hs', hle⟩, -⟩
      rw [hps] at hs'
      injection hs' with hss
      subst hss
      omega
    · rw [if_neg hlen]
      by_cases hod : i.onDisk = true
      · rw [if_neg (not_not_intro hod)]
        by_cases hif : i.isFile = true
        · rw [if_neg (not_not_intro hif)]
          cases hmeta : i.meta with
          | none =>
            refine iff_of_false (invalid_not_valid _) ?_
            rintro ⟨-, -, -, ⟨sz, ro, hm, -⟩, -⟩
            rw [hmeta] at hm
            exact Option.noConfusion hm
          | some szro =>
            obtain ⟨sz, ro⟩ := szro
            dsimp only
            by_cases h100 : sz < 100
            · rw [if_pos h100]
              refine iff_of_false (invalid_not_valid _) ?_
              rintro ⟨-, -, -, ⟨sz', ro', hm, h1, -⟩, -⟩
              rw [hmeta] at hm
              injection hm with hm'
              injection hm' with hsz hro
              omega
            · rw [if_neg h100]
              by_cases hbig : sz > 1000000000
              · rw [if_pos hbig]
                refine iff_of_false (invalid_not_valid _) ?_
                rintro ⟨-, -, -, ⟨sz', ro', hm, -, h2⟩, -⟩
                rw [hmeta] at hm
                injection hm with hm'
                injection hm' with hsz hro
                omega
              · rw [if_neg hbig]
                by_cases hro : ro = true ∧ i.content = none
                · rw [if_pos hro]
                  refine iff_of_false (invalid_not_valid _) ?_
                  rintro ⟨-, -, -, -, ⟨c, hc, -⟩⟩
                  rw [hro.2] at hc
                  exact Option.noConfusion hc
                · rw [if_neg hro]
                  cases hext : i.ext with
                  | none =>
                    dsimp only
                    refine iff_of_false (invalid_not_valid _) ?_
                    rintro ⟨-, -, -, -, ⟨c, hc, hmg⟩⟩
                    rcases hmg with ⟨e, he, -⟩ | ⟨e, he, -⟩ <;>
                      (rw [hext] at he; exact Option.noConfusion he)
                  | some e =>
                    dsimp only
                    cases hfmt : extToFormat e with
                    | none =>
                      dsimp only
                      refine iff_of_false (invalid_not_valid _) ?_
                      rintro ⟨-, -, -, -, ⟨c, hc, hmg⟩⟩
                      rcases hmg with ⟨e', he, hf, -⟩ | ⟨e', he, hf, -⟩ <;>
                        (rw [hext] at he; injection he with he'; subst he';
                         rw [hfmt] at hf; exact Option.noConfusion hf)
                    | some fmt =>
                      cases fmt with
                      | other =>
                        dsimp only
                        refine iff_of_false (invalid_not_valid _) ?_
                        rintro ⟨-, -, -, -, ⟨c, hc, hmg⟩⟩
                        rcases hmg with ⟨e', he, hf, -⟩ | ⟨e', he, hf, -⟩ <;>
                          (rw [hext] at he; injection he with he'; subst he';
                           rw [hfmt] at hf; injection hf with hf';
                           exact ImgFormat.noConfusion hf')
                      | jpeg =>
                        cases hcont : i.content with
                        | none =>
                          simp only [validate_file_format]
                          refine iff_of_false (invalid_not_valid _) ?_
                          rintro ⟨-, -, -, -, ⟨c, hc, -⟩⟩
                          rw [hcont] at hc
                          exact Option.noConfusion hc
                        | some c =>
                          simp only [validate_file_format]
                          have hclen : c.length = sz := by
                            unfold FsInfo.wf at hwf
                            rw [hmeta, hcont] at hwf
                            exact hwf
                          rw [if_neg (show ¬ min 16 c.length < 4 by omega)]
                          by_cases hmagic : nth c 0 ≠ 255 ∨ nth c 1 ≠ 216 ∨
                              nth c 2 ≠ 255
                          · rw [if_pos hmagic]
                            refine iff_of_false (invalid_not_valid _) ?_
                            rintro ⟨-, -, -, -, ⟨c', hc', hmg⟩⟩
                            rw [hcont] at hc'
                            injection hc' with hc''
                            subst hc''
                            rcases hmg with ⟨e', he, hf, ht⟩ | ⟨e', he, hf, -⟩
                            · have := (take3_magic c (by omega)).mp ht
                              rcases hmagic with h | h | h <;> tauto
                            · rw [hext] at he
                              injection he with he'
                              subst he'
                              rw [hfmt] at hf
                              injection hf with hf'
                              exact ImgFormat.noConfusion hf'
                          · rw [if_neg hmagic]
                            push_neg at hmagic
                            refine iff_of_true rfl ?_
                            refine ⟨⟨s, hps, by omega⟩, hod, hif,
                              ⟨sz, ro, hmeta, by omega, by omega⟩,
                              ⟨c, hcont, Or.inl ⟨e, hext, hfmt, ?_⟩⟩⟩
                            exact (take3_magic c (by omega)).mpr
                              ⟨hmagic.1, hmagic.2.1, hmagic.2.2⟩
                      | png =>
                        cases hcont : i.content with
                        | none =>
                          simp only [validate_file_format]
                          refine iff_of_false (invalid_not_valid _) ?_
                          rintro ⟨-, -, -, -, ⟨c, hc, -⟩⟩
                          rw [hcont] at hc
                          exact Option.noConfusion hc
                        | some c =>
                          simp only [validate_file_format]
                          have hclen : c.length = sz := by
                            unfold FsInfo.wf at hwf
                            rw [hmeta, hcont] at hwf
                            exact hwf
                          rw [if_neg (show ¬ min 16 c.length < 4 by omega)]
                          by_cases hmagic : min 16 c.length < 8 ∨
                              c.take 8 ≠ pngSignature
                          · rw [if_pos hmagic]
                            refine iff_of_false (invalid_not_valid _) ?_
                            rintro ⟨-, -, -, -, ⟨c', hc', hmg⟩⟩
                            rw [hcont] at hc'
                            injection hc' with hc''
                            subst hc''
                            rcases hmg with ⟨e', he, hf, -⟩ | ⟨e', he, hf, ht⟩
                            · rw [hext] at he
                              injection he with he'
                              subst he'
                              rw [hfmt] at hf
                              injection hf with hf'
                              exact ImgFormat.noConfusion hf'
                            · rcases hmagic with h | h
                              · omega
                              · exact h ht
                          · rw [if_neg hmagic]
                            push_neg at hmagic
                            refine iff_of_true rfl ?_
                            exact ⟨⟨s, hps, by omega⟩, hod, hif,
                              ⟨sz, ro, hmeta, by omega, by omega⟩,
                              ⟨c, hcont, Or.inr ⟨e, hext, hfmt, hmagic.2⟩⟩⟩
        · rw [if_pos hif]
          refine iff_of_false (invalid_not_valid _) ?_
          rintro ⟨-, -, hf, -⟩
          exact hif hf
      · rw [if_pos hod]
        refine iff_of_false (invalid_not_valid _) ?_
        rintro ⟨-, hd, -⟩
        exact hod hd

/-- C1 witness: the theorem applied to the OS view of a well-formed 100-byte
JPEG named `a.jpg`, which the validator accepts. -/
theorem imageTaskNew_valid_iff_witness :
    goodJpegInfo.wf ∧
    ((imageTaskNew goodJpegInfo).isValid = true ↔ taskValidSpec goodJpegInfo) ∧
    (imageTaskNew goodJpegInfo).isValid = true := by
  have hwf : goodJpegInfo.wf := by
    show ([255, 216, 255] ++ List.replicate 97 0 : List Nat).length = 100
    decide
  exact ⟨hwf, imageTaskNew_valid_iff goodJpegInfo hwf, by decide⟩

end Iron
